import Mathlib

/-!
Verification of the session concurrency and notification core of the
agents-playground chat server.  The Python sources under backend/ are
shallowly embedded: dictionaries become association lists, asynchronous
emission becomes an explicit list of emitted events, and each handler
becomes a pure state-passing function.
-/

/-- Association-list lookup, modelling Python dict lookup. -/
def lookupA {α : Type} : List (String × α) → String → Option α
  | [], _ => none
  | (k, v) :: rest, key => if k = key then some v else lookupA rest key

/-- Association-list update, modelling Python dict assignment:
replace the value when the key is present, append otherwise. -/
def setA {α : Type} : List (String × α) → String → α → List (String × α)
  | [], key, v => [(key, v)]
  | (k, w) :: rest, key, v =>
      if k = key then (k, v) :: rest else (k, w) :: setA rest key v

/-- Association-list deletion, modelling Python `del d[k]`. -/
def eraseA {α : Type} (m : List (String × α)) (key : String) : List (String × α) :=
  m.filter (fun p => p.1 ≠ key)

/-- One outbound progress event, the Python `stream_update` payloads and the
`stream_cancelled` acknowledgement. -/
inductive Event where
  | loading (content : String)
  | tool (name status : String) (call_id : Nat)
  | streamPart (content : String)
  | finalContent (content : String)
  | errorMsg (content : String)
  | streamCancelled
deriving DecidableEq

/-- One chat-history entry, the dict appended by `add_message_to_history`. -/
structure Message where
  role : String
  content : String
  timestamp : String
deriving DecidableEq

/-- Value stored in `active_tool_calls`: the dict
with keys tool and call_id built in `send_tool_notification`. -/
structure CallData where
  tool : String
  call_id : Nat
deriving DecidableEq

/-- The mutable context dict threaded through `send_tool_notification`
(backend/tools/utils.py).  The field `socket_sid` records whether both
the socket and sid entries are present and truthy. -/
structure ToolContext where
  socket_sid : Bool
  sent_tool_notifications : List (String × String)
  tool_call_counters : List (String × List Nat)
  active_tool_calls : List (String × CallData)
  current_tool_call_uuid : Option String
  global_tool_counter : Nat
deriving DecidableEq

/-- A fresh user context, as produced by `get_or_create_user_context` (the
tracking maps are initialised lazily by `send_tool_notification`, hence
empty here, and the counter starts at 0). -/
def freshContext : ToolContext :=
  { socket_sid := false
    sent_tool_notifications := []
    tool_call_counters := []
    active_tool_calls := []
    current_tool_call_uuid := none
    global_tool_counter := 0 }

/-- The notification key `tool_name + "_call_" + call_id` from
backend/tools/utils.py line 103. -/
def toolCallKey (tool_name : String) (call_id : Nat) : String :=
  tool_name ++ "_call_" ++ toString call_id

/-- Fallback resolution of a completion call id (backend/tools/utils.py
lines 95-100): the latest call id recorded for the tool, else 1. -/
def fallbackId (ctx : ToolContext) (tool_name : String) : Nat :=
  match lookupA ctx.tool_call_counters tool_name with
  | some l => if l.isEmpty then 1 else l.getLastD 1
  | none => 1

/-- Resolution of the call id for a non-starting notification
(backend/tools/utils.py lines 80-100): use the entry of
`current_tool_call_uuid` in `active_tool_calls` when present (removing it
when the status is completed), else fall back to the latest recorded call
id for the tool, else 1.  Returns the resolved id and the updated context. -/
def completionLookup (ctx : ToolContext) (tool_name status : String) :
    Nat × ToolContext :=
  match ctx.current_tool_call_uuid with
  | some cu =>
      if cu = "" then (fallbackId ctx tool_name, ctx)
      else
        match lookupA ctx.active_tool_calls cu with
        | some cd =>
            if status = "completed" then
              (cd.call_id,
               { ctx with active_tool_calls := eraseA ctx.active_tool_calls cu })
            else (cd.call_id, ctx)
        | none => (fallbackId ctx tool_name, ctx)
  | none => (fallbackId ctx tool_name, ctx)

/-- Tail of `send_tool_notification` (backend/tools/utils.py lines 102-143):
the duplicate-starting guard, the socket check, the emission and the
recording of the sent status.  Returns the updated context, the emitted
events and the Python return value. -/
def notifFinish (ctx : ToolContext) (tool_name status : String) (call_id : Nat) :
    ToolContext × List Event × Bool :=
  let key := toolCallKey tool_name call_id
  if status = "starting" ∧ lookupA ctx.sent_tool_notifications key = some "starting" then
    (ctx, [], false)
  else if ctx.socket_sid then
    ({ ctx with sent_tool_notifications := setA ctx.sent_tool_notifications key status },
     [Event.tool tool_name status call_id], true)
  else
    (ctx, [], false)

/-- `send_tool_notification` from backend/tools/utils.py.  `fresh_uuid`
stands for the `uuid.uuid4()` generated in the starting branch. -/
def send_tool_notification (ctx : ToolContext) (tool_name status fresh_uuid : String) :
    ToolContext × List Event × Bool :=
  if status = "starting" then
    let call_id := ctx.global_tool_counter + 1
    let counters :=
      setA ctx.tool_call_counters tool_name
        ((lookupA ctx.tool_call_counters tool_name).getD [] ++ [call_id])
    let active := setA ctx.active_tool_calls fresh_uuid ⟨tool_name, call_id⟩
    let ctx1 :=
      { ctx with
          global_tool_counter := call_id
          tool_call_counters := counters
          active_tool_calls := active
          current_tool_call_uuid := some fresh_uuid }
    notifFinish ctx1 tool_name status call_id
  else
    let r := completionLookup ctx tool_name status
    notifFinish r.2 tool_name status r.1

/-- The module-level state of backend/state.py: per-user histories, per-user
persistent contexts, and per-connection active task lists.  Tasks are
identified by numeric ids; `cancelled` collects the ids on which
`task.cancel()` was requested. -/
structure ServerState where
  chat_histories : List (String × List Message)
  user_contexts : List (String × ToolContext)
  active_tasks : List (String × List Nat)
  cancelled : List Nat
deriving DecidableEq

/-- The empty server state (no sessions, no connections). -/
def emptyServer : ServerState :=
  { chat_histories := [], user_contexts := [], active_tasks := [], cancelled := [] }

/-- `get_or_create_user_context` from backend/state.py: initialise the user
context and an empty history on first sight of the user id. -/
def get_or_create_user_context (s : ServerState) (user_id : String) : ServerState :=
  match lookupA s.user_contexts user_id with
  | some _ => s
  | none =>
      { s with
          user_contexts := setA s.user_contexts user_id freshContext
          chat_histories := setA s.chat_histories user_id [] }

/-- `add_message_to_history` from backend/state.py. -/
def add_message_to_history (s : ServerState) (user_id role content timestamp : String) :
    ServerState :=
  let old := (lookupA s.chat_histories user_id).getD []
  { s with
      chat_histories :=
        setA s.chat_histories user_id (old ++ [⟨role, content, timestamp⟩]) }

/-- `clear_chat_history` from backend/state.py. -/
def clear_chat_history (s : ServerState) (user_id : String) : ServerState :=
  match lookupA s.chat_histories user_id with
  | some _ => { s with chat_histories := setA s.chat_histories user_id [] }
  | none => s

/-- `get_chat_history` from backend/state.py. -/
def get_chat_history (s : ServerState) (user_id : String) : List Message :=
  (lookupA s.chat_histories user_id).getD []

/-- `format_history_for_agent` from backend/state.py: the user/assistant
messages, system entries skipped; `none` when the history is empty. -/
def format_history_for_agent (s : ServerState) (user_id : String) :
    Option (List (String × String)) :=
  match lookupA s.chat_histories user_id with
  | none => none
  | some [] => none
  | some msgs =>
      some ((msgs.filter (fun m => m.role = "user" ∨ m.role = "assistant")).map
        (fun m => (m.role, m.content)))

/-- `register_active_task` from backend/state.py. -/
def register_active_task (s : ServerState) (sid : String) (task : Nat) : ServerState :=
  { s with
      active_tasks :=
        setA s.active_tasks sid ((lookupA s.active_tasks sid).getD [] ++ [task]) }

/-- `cancel_active_tasks` from backend/state.py: when the connection has a
non-empty task list, request cancellation of each task, empty the list and
return true; otherwise return false. -/
def cancel_active_tasks (s : ServerState) (sid : String) : ServerState × Bool :=
  match lookupA s.active_tasks sid with
  | some (t :: ts) =>
      ({ s with
          cancelled := s.cancelled ++ (t :: ts)
          active_tasks := setA s.active_tasks sid [] }, true)
  | _ => (s, false)

/-- `remove_active_task` from backend/state.py: keep the entries different
from the given task. -/
def remove_active_task (s : ServerState) (sid : String) (task : Nat) : ServerState :=
  match lookupA s.active_tasks sid with
  | some l =>
      { s with active_tasks := setA s.active_tasks sid (l.filter (fun t => t ≠ task)) }
  | none => s

/-- The `cancel_stream` handler from backend/socket_routes.py: on successful
cancellation emit the `stream_cancelled` acknowledgement and, when the
request carries a user id, append the cancellation entry to that user's
history. -/
def cancel_stream (s : ServerState) (sid : String) (user_id : Option String)
    (timestamp : String) : ServerState × List Event × Bool :=
  let r := cancel_active_tasks s sid
  if r.2 then
    let s1 :=
      match user_id with
      | some uid =>
          add_message_to_history r.1 uid "system"
            "[Response generation was cancelled]" timestamp
      | none => r.1
    (s1, [Event.streamCancelled], true)
  else (r.1, [], false)

/-- The space character, written by code point to match the Python
string literals. -/
def spaceChar : Char := Char.ofNat 32

/-- Python whitespace as recognised by `str.split()` and `str.strip()`:
space, tab, newline, carriage return, vertical tab, form feed. -/
def pyIsSpace (c : Char) : Bool :=
  c.toNat = 32 || c.toNat = 9 || c.toNat = 10 || c.toNat = 13 ||
    c.toNat = 11 || c.toNat = 12

/-- Tokenizer for Python `str.split()`: `acc` holds the characters of the
word currently being read, in reverse. -/
def pySplitAux : List Char → List Char → List (List Char)
  | [], acc => if acc.isEmpty then [] else [acc.reverse]
  | c :: cs, acc =>
      if pyIsSpace c then
        if acc.isEmpty then pySplitAux cs [] else acc.reverse :: pySplitAux cs []
      else pySplitAux cs (c :: acc)

/-- Python `str.split()` with no argument, over the character list of the
string: maximal runs of non-whitespace characters. -/
def pySplit (s : List Char) : List (List Char) :=
  pySplitAux s []

/-- Python `' '.join(ws)`: words joined by single spaces. -/
def joinSp : List (List Char) → List Char
  | [] => []
  | [w] => w
  | w :: ws => w ++ spaceChar :: joinSp ws

/-- Python `str.lstrip()` over characters. -/
def lstripL (s : List Char) : List Char :=
  s.dropWhile (fun c => pyIsSpace c)

/-- Python `str.rstrip()` over characters. -/
def rstripL (s : List Char) : List Char :=
  (s.reverse.dropWhile (fun c => pyIsSpace c)).reverse

/-- Python `str.strip()` over characters. -/
def stripL (s : List Char) : List Char :=
  rstripL (lstripL s)

/-- Fuel-indexed slicing: the fuel dominates the list length, so the fuel
case for a non-empty list is never reached when called with enough fuel. -/
def toChunksAux {α : Type} (cs : Nat) : Nat → List α → List (List α)
  | _, [] => []
  | 0, _ :: _ => []
  | fuel + 1, w :: rest =>
      ((w :: rest).take cs) :: toChunksAux cs fuel ((w :: rest).drop cs)

/-- The slicing loop `for i in range(0, len(words), chunk_size)` of
backend/socket_routes.py lines 130-133: consecutive blocks of `cs`
elements.  A step of 0 would be a Python error; it is unreachable because
the computed chunk size is at least 1 (we return [] there). -/
def toChunks {α : Type} (cs : Nat) (ws : List α) : List (List α) :=
  if cs = 0 then [] else toChunksAux cs ws.length ws

/-- The chunk-size computation of backend/socket_routes.py lines 126-128:
`min(max(len(words) // 10, 5), 10)`, bumped to 1 if below 1 (dead code,
since the clamp never goes below 5). -/
def chunkSize (wordCount : Nat) : Nat :=
  let cs := min (max (wordCount / 10) 5) 10
  if cs < 1 then 1 else cs

/-- The streaming loop of backend/socket_routes.py lines 136-148: the
accumulated text grows by `chunk + " "` and each emitted partial content is
`accumulated_text.strip()`. -/
def partsAux (acc : List Char) : List (List Char) → List (List Char)
  | [] => []
  | ch :: rest =>
      stripL (acc ++ ch ++ [spaceChar]) ::
        partsAux (acc ++ ch ++ [spaceChar]) rest

/-- The chunk strings `' '.join(words[i:end])` computed by the chunking
loop for a response text. -/
def responseChunks (response : List Char) : List (List Char) :=
  (toChunks (chunkSize (pySplit response).length) (pySplit response)).map joinSp

/-- The successive contents of the `partial` stream events emitted for a
response text (backend/socket_routes.py lines 121-148, identically
backend/http_routes.py lines 67-92). -/
def streamParts (response : List Char) : List (List Char) :=
  partsAux [] (responseChunks response)

/-- The possible shapes of `result.final_output` as seen by
`format_agent_response`: Python None, a plain value rendered by `str`,
or a dict (a Pydantic model is dumped to a dict first). -/
inductive AgentOut where
  | noneOut
  | strOut (s : String)
  | dictOut (fields : List (String × String))
deriving DecidableEq

/-- A rendering of `json.dumps` on a string-valued dict, used only
for the no-known-field branch of `format_agent_response`. -/
def jsonDumps (fields : List (String × String)) : String :=
  "\x7b" ++
    String.intercalate ", "
      (fields.map (fun p => "\"" ++ p.1 ++ "\": \"" ++ p.2 ++ "\"")) ++
    "\x7d"

/-- `format_agent_response` from backend/utils.py: None gets the fixed
sentence; a dict is probed for message, then response, then content, then
serialised; anything else is rendered by `str`. -/
def format_agent_response : AgentOut → String
  | .noneOut => "I don\x27t have a specific response for that query."
  | .dictOut fields =>
      match lookupA fields "message" with
      | some v => v
      | none =>
          match lookupA fields "response" with
          | some v => v
          | none =>
              match lookupA fields "content" with
              | some v => v
              | none => jsonDumps fields
  | .strOut s => s

/-- The opaque agent runtime for one turn: the tools it invokes in order
(each wrapped in a starting and a completed notification, as every tool in
backend/tools/ does) and its outcome, a final output or a raised error. -/
structure AgentModel where
  toolsCalled : List String
  result : Except String AgentOut

/-- Running the agent runtime against a context: each tool invocation sends
a starting notification (with a fresh uuid) and then a completed
notification, exactly as the tools in backend/tools/ do around their work. -/
def runAgentTools : ToolContext → List String → Nat → ToolContext × List Event
  | ctx, [], _ => (ctx, [])
  | ctx, t :: ts, n =>
      let r1 := send_tool_notification ctx t "starting" ("uuid-" ++ toString n)
      let r2 := send_tool_notification r1.1 t "completed" ""
      let r3 := runAgentTools r2.1 ts (n + 1)
      (r3.1, r1.2.1 ++ r2.2.1 ++ r3.2)

/-- The task body `process_agent_response` of backend/socket_routes.py
lines 83-194, run to completion: emit the generating-response loading
event, reset the sent-notification map, run the agent through
`CustomRunner` (which copies the context and attaches the socket), then on
success stream the chunked partials, the final content and append the
assistant history entry; on an exception emit one error event and append a
system history entry.  Both paths remove the task from the registry. -/
def process_agent_response (s : ServerState) (sid user_id : String)
    (agent : AgentModel) (timestamp : String) (taskId : Nat) :
    ServerState × List Event :=
  let evGen := Event.loading "Generating response..."
  let pctx := (lookupA s.user_contexts user_id).getD freshContext
  let pctx1 := { pctx with sent_tool_notifications := [] }
  let s1 := { s with user_contexts := setA s.user_contexts user_id pctx1 }
  let runctx := { pctx1 with socket_sid := true }
  let r := runAgentTools runctx agent.toolsCalled 0
  match agent.result with
  | .ok out =>
      let response := format_agent_response out
      let parts := (streamParts response.toList).map
        (fun l => Event.streamPart (String.mk l))
      let s2 := add_message_to_history s1 user_id "assistant" response timestamp
      let s3 := remove_active_task s2 sid taskId
      (s3, evGen :: (r.2 ++ parts ++ [Event.finalContent response]))
  | .error e =>
      let emsg := "Sorry, there was an error processing your request: " ++ e
      let s2 := add_message_to_history s1 user_id "system" emsg timestamp
      let s3 := remove_active_task s2 sid taskId
      (s3, evGen :: (r.2 ++ [Event.errorMsg emsg]))

/-- The `chat_request` handler of backend/socket_routes.py lines 49-203 for
a well-formed request, with the spawned task run to completion: create the
session, append the user message, emit the processing loading event,
register the task and run its body.  The input list built by
`format_history_for_agent` is passed to the opaque runtime and does not
influence the modelled events. -/
def chat_request (s : ServerState) (sid user_id message ts1 ts2 : String)
    (agent : AgentModel) (taskId : Nat) : ServerState × List Event :=
  let s1 := get_or_create_user_context s user_id
  let s2 := add_message_to_history s1 user_id "user" message ts1
  let ev0 := Event.loading "Processing your request..."
  let s3 := register_active_task s2 sid taskId
  let r := process_agent_response s3 sid user_id agent ts2 taskId
  (r.1, ev0 :: r.2)

/-- The HTTP streaming generator `stream_agent_response` of
backend/http_routes.py lines 20-103: same turn executor without a socket
(tool notifications are dropped), the generating-response loading event
emitted after the agent run, and on an exception one error event with the
message also appended as an assistant history entry. -/
def stream_agent_response (s : ServerState) (user_id message ts1 ts2 : String)
    (agent : AgentModel) : ServerState × List Event :=
  let s1 := get_or_create_user_context s user_id
  let s2 := add_message_to_history s1 user_id "user" message ts1
  let ev0 := Event.loading "Processing your request..."
  let pctx := (lookupA s2.user_contexts user_id).getD freshContext
  let runctx := { pctx with socket_sid := false }
  let r := runAgentTools runctx agent.toolsCalled 0
  match agent.result with
  | .ok out =>
      let response := format_agent_response out
      let parts := (streamParts response.toList).map
        (fun l => Event.streamPart (String.mk l))
      let s3 := add_message_to_history s2 user_id "assistant" response ts2
      (s3, ev0 :: (r.2 ++ (Event.loading "Generating response..." ::
        (parts ++ [Event.finalContent response]))))
  | .error e =>
      let emsg := "Sorry, I encountered an error: " ++ e
      let s3 := add_message_to_history s2 user_id "assistant" emsg ts2
      (s3, ev0 :: (r.2 ++ [Event.errorMsg emsg]))

/-- Successive accumulations `pre ++ g1`, `pre ++ g1 ++ g2`, ... of word
groups onto a prefix: the word-level contents of the successive partials. -/
def cumConcat {α : Type} (pre : List α) : List (List α) → List (List α)
  | [] => []
  | g :: gs => (pre ++ g) :: cumConcat (pre ++ g) gs

/-- The accumulated character text corresponding to a consumed word list:
empty initially, otherwise the words joined by single spaces plus the
trailing space appended after every chunk. -/
def accOf : List (List Char) → List Char
  | [] => []
  | w :: ws => joinSp (w :: ws) ++ [spaceChar]

/-- A word as produced by `str.split()`: non-empty and free of
whitespace characters. -/
def cleanW (w : List Char) : Prop :=
  w ≠ [] ∧ ∀ c ∈ w, pyIsSpace c = false

theorem lookupA_setA_self {α : Type} (m : List (String × α)) (k : String) (v : α) :
    lookupA (setA m k v) k = some v := by
  induction m with
  | nil => simp [setA, lookupA]
  | cons p rest ih =>
      obtain ⟨k1, v1⟩ := p
      by_cases h : k1 = k
      · simp [setA, lookupA, h]
      · simp [setA, lookupA, h, ih]

theorem notifFinish_fields (c : ToolContext) (t st : String) (i : Nat) :
    (notifFinish c t st i).1.global_tool_counter = c.global_tool_counter ∧
    (notifFinish c t st i).1.tool_call_counters = c.tool_call_counters ∧
    (notifFinish c t st i).1.active_tool_calls = c.active_tool_calls ∧
    (notifFinish c t st i).1.current_tool_call_uuid = c.current_tool_call_uuid ∧
    (notifFinish c t st i).1.socket_sid = c.socket_sid := by
  by_cases h1 : (st = "starting" ∧
      lookupA c.sent_tool_notifications (toolCallKey t i) = some "starting")
  · simp [notifFinish, h1]
  · by_cases h2 : c.socket_sid <;> simp [notifFinish, h1, h2]

theorem notifFinish_no_socket (c : ToolContext) (t st : String) (i : Nat)
    (h : c.socket_sid = false) : (notifFinish c t st i).2 = ([], false) := by
  by_cases h1 : (st = "starting" ∧
      lookupA c.sent_tool_notifications (toolCallKey t i) = some "starting")
  · simp [notifFinish, h1]
  · simp [notifFinish, h1, h]

theorem notifFinish_completed (c : ToolContext) (t : String) (i : Nat) :
    notifFinish c t "completed" i =
      if c.socket_sid then
        ({ c with sent_tool_notifications :=
              setA c.sent_tool_notifications (toolCallKey t i) "completed" },
         [Event.tool t "completed" i], true)
      else (c, [], false) := by
  have h1 : ¬("completed" = "starting" ∧
      lookupA c.sent_tool_notifications (toolCallKey t i) = some "starting") := by
    rintro ⟨hx, _⟩
    exact absurd hx (by decide)
  by_cases h2 : c.socket_sid <;> simp [notifFinish, h1, h2]

theorem send_start_eq (ctx : ToolContext) (tool fresh : String) :
    send_tool_notification ctx tool "starting" fresh =
      notifFinish
        { ctx with
            global_tool_counter := ctx.global_tool_counter + 1
            tool_call_counters :=
              setA ctx.tool_call_counters tool
                ((lookupA ctx.tool_call_counters tool).getD []
                  ++ [ctx.global_tool_counter + 1])
            active_tool_calls :=
              setA ctx.active_tool_calls fresh ⟨tool, ctx.global_tool_counter + 1⟩
            current_tool_call_uuid := some fresh }
        tool "starting" (ctx.global_tool_counter + 1) := by
  simp [send_tool_notification]

theorem send_complete_eq (ctx : ToolContext) (tool fresh : String) :
    send_tool_notification ctx tool "completed" fresh =
      notifFinish (completionLookup ctx tool "completed").2 tool "completed"
        (completionLookup ctx tool "completed").1 := by
  simp [send_tool_notification]

theorem completionLookup_fields (ctx : ToolContext) (tool st : String) :
    (completionLookup ctx tool st).2.socket_sid = ctx.socket_sid ∧
    (completionLookup ctx tool st).2.sent_tool_notifications =
      ctx.sent_tool_notifications := by
  unfold completionLookup
  cases hc : ctx.current_tool_call_uuid with
  | none => simp
  | some cu =>
      by_cases hcu : cu = ""
      · simp [hcu]
      · cases h : lookupA ctx.active_tool_calls cu with
        | none => simp [hcu, h]
        | some cd => by_cases hst : st = "completed" <;> simp [hcu, h, hst]

/-- C9: when the agent result's final output is Python None,
`format_agent_response` returns the fixed fallback sentence rather than
raising or producing an empty string. -/
theorem format_none_fallback :
    format_agent_response AgentOut.noneOut =
      "I don\x27t have a specific response for that query." ∧
    format_agent_response AgentOut.noneOut ≠ "" :=
  ⟨rfl, by decide⟩

/-- C1: evaluating the failing input start, complete, complete for one
tool with a socket attached: the second completion signal resolves through
the fallback path to the same call id, and the code emits the "completed"
event a second time — the `sent_notifications` guard only suppresses
duplicate "starting" notifications, so the at-most-once claim for
"completed" fails on the code. -/
theorem duplicate_completed_reemitted :
    ((send_tool_notification { freshContext with socket_sid := true }
        "text_to_sql" "starting" "u1").2.1 =
      [Event.tool "text_to_sql" "starting" 1]) ∧
    ((send_tool_notification
        (send_tool_notification { freshContext with socket_sid := true }
          "text_to_sql" "starting" "u1").1
        "text_to_sql" "completed" "x2").2.1 =
      [Event.tool "text_to_sql" "completed" 1]) ∧
    ((send_tool_notification
        (send_tool_notification
          (send_tool_notification { freshContext with socket_sid := true }
            "text_to_sql" "starting" "u1").1
          "text_to_sql" "completed" "x2").1
        "text_to_sql" "completed" "x3").2.1 =
      [Event.tool "text_to_sql" "completed" 1]) :=
  ⟨rfl, rfl, rfl⟩

/-- C10: every start signal increments the session-scoped global tool
counter by exactly one and records the new call in `tool_call_counters` and
`active_tool_calls` before the socket check; with no socket attached the
notification is silently dropped (no event, return false) while the
counter was still consumed. -/
theorem notify_start_counter_spec (ctx : ToolContext) (tool fresh : String) :
    (send_tool_notification ctx tool "starting" fresh).1.global_tool_counter =
      ctx.global_tool_counter + 1 ∧
    lookupA (send_tool_notification ctx tool "starting" fresh).1.tool_call_counters
        tool =
      some ((lookupA ctx.tool_call_counters tool).getD []
        ++ [ctx.global_tool_counter + 1]) ∧
    lookupA (send_tool_notification ctx tool "starting" fresh).1.active_tool_calls
        fresh =
      some ⟨tool, ctx.global_tool_counter + 1⟩ ∧
    (send_tool_notification ctx tool "starting" fresh).1.current_tool_call_uuid =
      some fresh ∧
    (ctx.socket_sid = false →
      (send_tool_notification ctx tool "starting" fresh).2 = ([], false)) := by
  rw [send_start_eq]
  refine ⟨?_, ?_, ?_, ?_, ?_⟩
  · rw [(notifFinish_fields _ _ _ _).1]
  · rw [(notifFinish_fields _ _ _ _).2.1]
    exact lookupA_setA_self _ _ _
  · rw [(notifFinish_fields _ _ _ _).2.2.1]
    exact lookupA_setA_self _ _ _
  · rw [(notifFinish_fields _ _ _ _).2.2.2.1]
  · intro h
    exact notifFinish_no_socket _ _ _ _ h

/-- C10 witness: at a concrete context with no socket, the start signal
consumes call id 1, records it, and emits nothing. -/
theorem notify_start_counter_spec_witness :
    freshContext.socket_sid = false ∧
    (send_tool_notification freshContext "text_to_sql" "starting" "u1").1.global_tool_counter = 1 ∧
    (send_tool_notification freshContext "text_to_sql" "starting" "u1").2 = ([], false) := by
  refine ⟨rfl, ?_, ?_⟩
  · exact (notify_start_counter_spec freshContext "text_to_sql" "u1").1
  · exact (notify_start_counter_spec freshContext "text_to_sql" "u1").2.2.2.2 rfl

/-- C7: clearing a user's history empties it (a subsequent `get_chat_history`
returns []) and leaves the whole user-context map — in particular the
session's `global_tool_counter` and every other context field — unchanged;
a later tool start still increments the counter by exactly one, so
numbering continues monotonically from the pre-clear value. -/
theorem clear_history_frame_spec (s : ServerState) (uid : String) :
    get_chat_history (clear_chat_history s uid) uid = [] ∧
    (clear_chat_history s uid).user_contexts = s.user_contexts ∧
    ∀ ctx : ToolContext, ∀ tool fresh : String,
      (send_tool_notification ctx tool "starting" fresh).1.global_tool_counter =
        ctx.global_tool_counter + 1 ∧
      lookupA (send_tool_notification ctx tool "starting" fresh).1.tool_call_counters
          tool =
        some ((lookupA ctx.tool_call_counters tool).getD []
          ++ [ctx.global_tool_counter + 1]) := by
  refine ⟨?_, ?_, ?_⟩
  · unfold clear_chat_history get_chat_history
    cases h : lookupA s.chat_histories uid with
    | none => simp [h]
    | some l => simp [h, lookupA_setA_self]
  · unfold clear_chat_history
    cases h : lookupA s.chat_histories uid <;> simp
  · intro ctx tool fresh
    rw [send_start_eq]
    constructor
    · rw [(notifFinish_fields _ _ _ _).1]
    · rw [(notifFinish_fields _ _ _ _).2.1]
      exact lookupA_setA_self _ _ _

theorem filter_ne_of_count_one {l : List Nat} {a : Nat} (h : l.count a = 1) :
    l.filter (fun t => t ≠ a) = l.erase a := by
  induction l with
  | nil => simp
  | cons x xs ih =>
      by_cases hx : x = a
      · subst hx
        have hc : xs.count x = 0 := by
          rw [List.count_cons] at h
          simp at h
          exact h
        have hnx : x ∉ xs := List.count_eq_zero.mp hc
        rw [List.erase_cons_head]
        simp only [List.filter_cons]
        have : (decide (x ≠ x)) = false := by simp
        rw [this]
        exact List.filter_eq_self.mpr (fun t ht => by
          simp only [decide_eq_true_eq]
          rintro rfl
          exact hnx ht)
      · have hcount : xs.count a = 1 := by
          have hx2 : a ≠ x := Ne.symm hx
          rw [List.count_cons] at h
          simp [hx, hx2] at h
          omega
        rw [List.erase_cons_tail (by simp [hx])]
        simp only [List.filter_cons]
        have hdx : (decide (x ≠ a)) = true := by simp [hx]
        rw [hdx, ih hcount]
        simp

/-- C8 counterexample: a connection whose task list holds two references to
the same task (by identity).  `remove_active_task` keeps only the entries
different from the task, so it removes both references, not exactly one:
the resulting list is empty where the claim demands a one-element list. -/
theorem remove_task_counterexample :
    lookupA (remove_active_task
        { emptyServer with active_tasks := [("c1", [5, 5])] }
        "c1" 5).active_tasks "c1" = some [] ∧
    (some ([] : List Nat) ≠ some [5]) := by
  exact ⟨rfl, by decide⟩

/-- C8 (amended): `remove_active_task` removes every reference equal (by
identity) to the given task, preserving the other entries and their order;
when the task occurs exactly once — the only situation the server produces,
since each task is registered once — exactly one reference is removed. -/
theorem remove_task_amended (s : ServerState) (sid : String) (task : Nat)
    (l : List Nat) (h : lookupA s.active_tasks sid = some l) :
    lookupA (remove_active_task s sid task).active_tasks sid =
      some (l.filter (fun t => t ≠ task)) ∧
    (l.count task = 1 → l.filter (fun t => t ≠ task) = l.erase task) := by
  constructor
  · unfold remove_active_task
    rw [h]
    exact lookupA_setA_self _ _ _
  · intro hc
    exact filter_ne_of_count_one hc

/-- C8 witness: a concrete registry where the task occurs once; removing it
deletes exactly that occurrence and keeps the other entries. -/
theorem remove_task_amended_witness :
    lookupA ({ emptyServer with
        active_tasks := [("c1", [1, 5, 2])] }).active_tasks "c1" =
      some [1, 5, 2] ∧
    lookupA (remove_active_task
        { emptyServer with active_tasks := [("c1", [1, 5, 2])] }
        "c1" 5).active_tasks "c1" = some [1, 2] ∧
    [1, 5, 2].filter (fun t => t ≠ 5) = [1, 5, 2].erase 5 := by
  refine ⟨rfl, ?_, ?_⟩
  · have h := (remove_task_amended
      { emptyServer with active_tasks := [("c1", [1, 5, 2])] }
      "c1" 5 [1, 5, 2] rfl).1
    rw [h]
    rfl
  · exact (remove_task_amended
      { emptyServer with active_tasks := [("c1", [1, 5, 2])] }
      "c1" 5 [1, 5, 2] rfl).2 (by decide)

/-- C2: `notify_complete` resolves the call id attached to the emitted
"completed" event with precedence (a) the `current_tool_call_uuid` entry of
`active_tool_calls` — using its recorded id and removing the entry — else
(b) the last call id recorded in `tool_call_counters[tool_name]` when that
sequence is non-empty, else (c) the default 1; the emitted event (present
exactly when a socket is attached) carries the resolved id. -/
theorem notify_complete_call_id_resolution (ctx : ToolContext) (tool fresh : String) :
    (∀ cu cd, ctx.current_tool_call_uuid = some cu → cu ≠ "" →
      lookupA ctx.active_tool_calls cu = some cd →
      completionLookup ctx tool "completed" =
        (cd.call_id,
         { ctx with active_tool_calls := eraseA ctx.active_tool_calls cu })) ∧
    ((∀ cu, ctx.current_tool_call_uuid = some cu → cu = "" ∨
        lookupA ctx.active_tool_calls cu = none) →
      completionLookup ctx tool "completed" = (fallbackId ctx tool, ctx)) ∧
    (∀ l, lookupA ctx.tool_call_counters tool = some l → l ≠ [] →
      fallbackId ctx tool = l.getLastD 1) ∧
    ((lookupA ctx.tool_call_counters tool = none ∨
      lookupA ctx.tool_call_counters tool = some []) → fallbackId ctx tool = 1) ∧
    (send_tool_notification ctx tool "completed" fresh).2.1 =
      (if ctx.socket_sid then
        [Event.tool tool "completed" (completionLookup ctx tool "completed").1]
      else []) := by
  refine ⟨?_, ?_, ?_, ?_, ?_⟩
  · intro cu cd h1 h2 h3
    simp [completionLookup, h1, h2, h3]
  · intro hmiss
    unfold completionLookup
    cases hc : ctx.current_tool_call_uuid with
    | none => rfl
    | some cu =>
        rcases hmiss cu hc with he | hn
        · simp [he]
        · by_cases he : cu = ""
          · simp [he]
          · simp [he, hn]
  · intro l hl hne
    simp [fallbackId, hl, hne]
  · rintro (hl | hl) <;> simp [fallbackId, hl]
  · rw [send_complete_eq, notifFinish_completed,
      (completionLookup_fields ctx tool "completed").1]
    by_cases hs : ctx.socket_sid <;> simp [hs]

/-- C2 witness: a concrete context where the current uuid resolves in
`active_tool_calls` with id 7: the completion uses 7, removes the entry,
and the emitted event carries call id 7. -/
theorem notify_complete_call_id_resolution_witness :
    completionLookup
        { freshContext with
            socket_sid := true
            active_tool_calls := [("u9", ⟨"text_to_sql", 7⟩)]
            current_tool_call_uuid := some "u9" } "text_to_sql" "completed" =
      (7, { freshContext with
              socket_sid := true
              active_tool_calls := []
              current_tool_call_uuid := some "u9" }) ∧
    (send_tool_notification
        { freshContext with
            socket_sid := true
            active_tool_calls := [("u9", ⟨"text_to_sql", 7⟩)]
            current_tool_call_uuid := some "u9" }
        "text_to_sql" "completed" "x").2.1 =
      [Event.tool "text_to_sql" "completed" 7] := by
  constructor
  · have h := (notify_complete_call_id_resolution
      { freshContext with
          socket_sid := true
          active_tool_calls := [("u9", ⟨"text_to_sql", 7⟩)]
          current_tool_call_uuid := some "u9" } "text_to_sql" "x").1
      "u9" ⟨"text_to_sql", 7⟩ rfl (by decide) rfl
    rw [h]
    rfl
  · have h := (notify_complete_call_id_resolution
      { freshContext with
          socket_sid := true
          active_tool_calls := [("u9", ⟨"text_to_sql", 7⟩)]
          current_tool_call_uuid := some "u9" } "text_to_sql" "x").2.2.2.2
    rw [h]
    rfl

/-- C3: `cancel_active_tasks` returns true exactly when at least one task
is registered for the connection; in that case it requests cancellation of
every registered task and empties the list, and a `cancel_stream` request
carrying a user id emits the `stream_cancelled` acknowledgement and appends
exactly one system entry "[Response generation was cancelled]" to that
user's history. -/
theorem cancel_all_spec (s : ServerState) (sid uid ts : String) :
    ((cancel_active_tasks s sid).2 = true ↔
      (lookupA s.active_tasks sid).getD [] ≠ []) ∧
    ((lookupA s.active_tasks sid).getD [] ≠ [] →
      lookupA (cancel_active_tasks s sid).1.active_tasks sid = some [] ∧
      (∀ t, t ∈ (lookupA s.active_tasks sid).getD [] →
        t ∈ (cancel_active_tasks s sid).1.cancelled) ∧
      (cancel_stream s sid (some uid) ts).2.1 = [Event.streamCancelled] ∧
      get_chat_history (cancel_stream s sid (some uid) ts).1 uid =
        get_chat_history s uid ++
          [⟨"system", "[Response generation was cancelled]", ts⟩]) := by
  cases hm : lookupA s.active_tasks sid with
  | none =>
      constructor
      · simp [cancel_active_tasks, hm]
      · intro hne
        simp at hne
  | some l =>
      cases l with
      | nil =>
          constructor
          · simp [cancel_active_tasks, hm]
          · intro hne
            simp [hm] at hne
      | cons t ts' =>
          constructor
          · simp [cancel_active_tasks, hm]
          · intro _
            refine ⟨?_, ?_, ?_, ?_⟩
            · simp [cancel_active_tasks, hm, lookupA_setA_self]
            · intro x hx
              simp [cancel_active_tasks, hm] at hx ⊢
              tauto
            · simp [cancel_stream, cancel_active_tasks, hm]
            · simp [cancel_stream, cancel_active_tasks, hm,
                add_message_to_history, get_chat_history, lookupA_setA_self]

/-- C3 witness: a concrete registry with two tasks for a connection — the
cancellation succeeds, both tasks are cancelled, the list is emptied, the
acknowledgement is emitted and the system entry appended. -/
theorem cancel_all_spec_witness :
    (cancel_active_tasks { emptyServer with active_tasks := [("c1", [3, 4])] }
        "c1").2 = true ∧
    lookupA (cancel_active_tasks
        { emptyServer with active_tasks := [("c1", [3, 4])] }
        "c1").1.active_tasks "c1" = some [] ∧
    3 ∈ (cancel_active_tasks { emptyServer with active_tasks := [("c1", [3, 4])] }
        "c1").1.cancelled ∧
    (cancel_stream { emptyServer with active_tasks := [("c1", [3, 4])] }
        "c1" (some "u1") "t2").2.1 = [Event.streamCancelled] ∧
    get_chat_history (cancel_stream
        { emptyServer with active_tasks := [("c1", [3, 4])] }
        "c1" (some "u1") "t2").1 "u1" =
      [⟨"system", "[Response generation was cancelled]", "t2"⟩] := by
  have h := cancel_all_spec { emptyServer with active_tasks := [("c1", [3, 4])] }
    "c1" "u1" "t2"
  have h2 := h.2 (by decide)
  refine ⟨h.1.mpr (by decide), h2.1, h2.2.1 3 (by decide), h2.2.2.1, ?_⟩
  have h3 := h2.2.2.2
  simpa using h3

/-- C5 counterexample: in the concrete one-tool scenario the second event
delivered is the loading "Generating response..." message — the task body
emits it before running the agent — and not the tool starting event that
the claimed ordering (starting before the generating loading) requires. -/
theorem turn_sequence_counterexample :
    ((chat_request emptyServer "sid1" "u1" "What is my ROAS this month?"
        "10:00 AM" "10:01 AM"
        ⟨["text_to_sql"], Except.ok (AgentOut.strOut "Your ROAS this month is strong.")⟩
        7).2).get? 1 = some (Event.loading "Generating response...") ∧
    ¬ (((chat_request emptyServer "sid1" "u1" "What is my ROAS this month?"
        "10:00 AM" "10:01 AM"
        ⟨["text_to_sql"], Except.ok (AgentOut.strOut "Your ROAS this month is strong.")⟩
        7).2).get? 1 = some (Event.tool "text_to_sql" "starting" 1)) := by
  exact ⟨rfl, by decide⟩

/-- C5 (amended): in the one-tool scenario the delivered sequence is
loading "Processing your request...", loading "Generating response...",
tool starting (call id 1), tool completed (call id 1), one or more
partials, one content event — the generating loading precedes the tool
events instead of separating start from completion — and the history after
the turn holds exactly the user and assistant entries. -/
theorem turn_sequence_amended :
    (chat_request emptyServer "sid1" "u1" "What is my ROAS this month?"
        "10:00 AM" "10:01 AM"
        ⟨["text_to_sql"], Except.ok (AgentOut.strOut "Your ROAS this month is strong.")⟩
        7).2 =
      [Event.loading "Processing your request...",
       Event.loading "Generating response...",
       Event.tool "text_to_sql" "starting" 1,
       Event.tool "text_to_sql" "completed" 1,
       Event.streamPart "Your ROAS this month is",
       Event.streamPart "Your ROAS this month is strong.",
       Event.finalContent "Your ROAS this month is strong."] ∧
    get_chat_history (chat_request emptyServer "sid1" "u1"
        "What is my ROAS this month?" "10:00 AM" "10:01 AM"
        ⟨["text_to_sql"], Except.ok (AgentOut.strOut "Your ROAS this month is strong.")⟩
        7).1 "u1" =
      [⟨"user", "What is my ROAS this month?", "10:00 AM"⟩,
       ⟨"assistant", "Your ROAS this month is strong.", "10:01 AM"⟩] := by
  constructor
  · with_unfolding_all rfl
  · with_unfolding_all rfl

/-- C6 counterexample: on the socket path a failing agent run is reported
with the event and history content "Sorry, there was an error processing
your request: ..." and the history entry has role system — not the claimed
form "Sorry, I encountered an error: ..." with role assistant. -/
theorem error_handling_counterexample :
    (chat_request emptyServer "sid1" "u1" "hi" "t1" "t2"
        ⟨[], Except.error "boom"⟩ 7).2 =
      [Event.loading "Processing your request...",
       Event.loading "Generating response...",
       Event.errorMsg "Sorry, there was an error processing your request: boom"] ∧
    get_chat_history (chat_request emptyServer "sid1" "u1" "hi" "t1" "t2"
        ⟨[], Except.error "boom"⟩ 7).1 "u1" =
      [⟨"user", "hi", "t1"⟩,
       ⟨"system", "Sorry, there was an error processing your request: boom", "t2"⟩] ∧
    ¬ ((get_chat_history (chat_request emptyServer "sid1" "u1" "hi" "t1" "t2"
        ⟨[], Except.error "boom"⟩ 7).1 "u1").getLast? =
      some ⟨"assistant", "Sorry, I encountered an error: boom", "t2"⟩) := by
  exact ⟨rfl, rfl, by decide⟩

/-- C6 (amended): a failing agent run never propagates — each transport
converts it into exactly one error event followed by exactly one history
entry and the turn ends with the task deregistered; on the socket path the
message is "Sorry, there was an error processing your request: cause" with
role system, while the HTTP streaming path uses
"Sorry, I encountered an error: cause" with role assistant. -/
theorem error_handling_amended (cause ts1 ts2 : String) :
    (chat_request emptyServer "sid1" "u1" "hi" ts1 ts2
        ⟨[], Except.error cause⟩ 7).2 =
      [Event.loading "Processing your request...",
       Event.loading "Generating response...",
       Event.errorMsg ("Sorry, there was an error processing your request: " ++ cause)] ∧
    get_chat_history (chat_request emptyServer "sid1" "u1" "hi" ts1 ts2
        ⟨[], Except.error cause⟩ 7).1 "u1" =
      [⟨"user", "hi", ts1⟩,
       ⟨"system", "Sorry, there was an error processing your request: " ++ cause, ts2⟩] ∧
    lookupA (chat_request emptyServer "sid1" "u1" "hi" ts1 ts2
        ⟨[], Except.error cause⟩ 7).1.active_tasks "sid1" = some [] ∧
    (stream_agent_response emptyServer "u1" "hi" ts1 ts2
        ⟨[], Except.error cause⟩).2 =
      [Event.loading "Processing your request...",
       Event.errorMsg ("Sorry, I encountered an error: " ++ cause)] ∧
    get_chat_history (stream_agent_response emptyServer "u1" "hi" ts1 ts2
        ⟨[], Except.error cause⟩).1 "u1" =
      [⟨"user", "hi", ts1⟩,
       ⟨"assistant", "Sorry, I encountered an error: " ++ cause, ts2⟩] := by
  refine ⟨?_, ?_, ?_, ?_, ?_⟩ <;> with_unfolding_all rfl

theorem pySplitAux_clean (s : List Char) :
    ∀ acc, (∀ c ∈ acc, pyIsSpace c = false) →
      ∀ w ∈ pySplitAux s acc, w ≠ [] ∧ ∀ c ∈ w, pyIsSpace c = false := by
  induction s with
  | nil =>
      intro acc hacc w hw
      simp only [pySplitAux] at hw
      by_cases hae : acc.isEmpty
      · rw [if_pos hae] at hw
        simp at hw
      · rw [if_neg hae] at hw
        simp at hw
        subst hw
        refine ⟨?_, ?_⟩
        · intro h
          rw [List.reverse_eq_nil_iff] at h
          subst h
          simp at hae
        · intro c hc
          exact hacc c (List.mem_reverse.mp hc)
  | cons c cs ih =>
      intro acc hacc w hw
      simp only [pySplitAux] at hw
      by_cases hsp : pyIsSpace c = true
      · rw [if_pos hsp] at hw
        by_cases hae : acc.isEmpty
        · rw [if_pos hae] at hw
          exact ih [] (by simp) w hw
        · rw [if_neg hae] at hw
          rcases List.mem_cons.mp hw with hw | hw
          · subst hw
            refine ⟨?_, ?_⟩
            · intro h
              rw [List.reverse_eq_nil_iff] at h
              subst h
              simp at hae
            · intro x hx
              exact hacc x (List.mem_reverse.mp hx)
          · exact ih [] (by simp) w hw
      · rw [if_neg hsp] at hw
        refine ih (c :: acc) ?_ w hw
        intro x hx
        rcases List.mem_cons.mp hx with rfl | hx
        · exact Bool.eq_false_iff.mpr hsp
        · exact hacc x hx

theorem pySplit_clean (s : List Char) :
    ∀ w ∈ pySplit s, w ≠ [] ∧ ∀ c ∈ w, pyIsSpace c = false :=
  pySplitAux_clean s [] (by simp)

theorem toChunksAux_fuel {α : Type} (cs : Nat) (hcs : cs ≠ 0) :
    ∀ f1 f2 (ws : List α), ws.length ≤ f1 → ws.length ≤ f2 →
      toChunksAux cs f1 ws = toChunksAux cs f2 ws := by
  intro f1
  induction f1 with
  | zero =>
      intro f2 ws h1 _
      cases ws with
      | nil => cases f2 <;> rfl
      | cons w rest => simp at h1
  | succ f ih =>
      intro f2 ws h1 h2
      cases ws with
      | nil => cases f2 <;> rfl
      | cons w rest =>
          cases f2 with
          | zero => simp at h2
          | succ f2x =>
              simp only [toChunksAux]
              congr 1
              apply ih
              · simp only [List.length_drop, List.length_cons] at *
                omega
              · simp only [List.length_drop, List.length_cons] at *
                omega

theorem toChunks_nil {α : Type} (cs : Nat) : toChunks cs ([] : List α) = [] := by
  unfold toChunks
  split <;> rfl

theorem toChunks_cons {α : Type} (cs : Nat) (hcs : cs ≠ 0) (w : α) (rest : List α) :
    toChunks cs (w :: rest) =
      ((w :: rest).take cs) :: toChunks cs ((w :: rest).drop cs) := by
  unfold toChunks
  rw [if_neg hcs, if_neg hcs]
  show toChunksAux cs (rest.length + 1) (w :: rest) = _
  simp only [toChunksAux]
  congr 1
  apply toChunksAux_fuel cs hcs
  · simp only [List.length_drop, List.length_cons]
    omega
  · exact Nat.le_refl _

theorem toChunks_length_le {α : Type} (cs : Nat) (hcs : cs ≠ 0) :
    ∀ (n : Nat) (ws : List α), ws.length ≤ n →
      (toChunks cs ws).length = (ws.length + cs - 1) / cs := by
  intro n
  induction n with
  | zero =>
      intro ws h
      have hnil : ws = [] := List.length_eq_zero.mp (by omega)
      subst hnil
      rw [toChunks_nil]
      simp only [List.length_nil]
      rw [Nat.div_eq_of_lt (by omega)]
  | succ n ih =>
      intro ws h
      cases ws with
      | nil =>
          rw [toChunks_nil]
          simp only [List.length_nil]
          rw [Nat.div_eq_of_lt (by omega)]
      | cons w rest =>
          rw [toChunks_cons cs hcs]
          simp only [List.length_cons]
          rw [ih _ (by simp only [List.length_drop, List.length_cons] at h ⊢; omega)]
          simp only [List.length_drop, List.length_cons]
          rcases le_or_lt (rest.length + 1) cs with hle | hlt
          · have h1 : rest.length + 1 - cs = 0 := by omega
            rw [h1]
            rw [Nat.div_eq_of_lt (by omega)]
            have h3 : rest.length + 1 + cs - 1 = rest.length + cs := by omega
            rw [h3]
            have h4 : (rest.length + cs) / cs = 1 := by
              have := Nat.add_div_right rest.length (by omega : 0 < cs)
              rw [this, Nat.div_eq_of_lt (by omega)]
            rw [h4]
          · have h1 : rest.length + 1 - cs + cs - 1 = rest.length := by omega
            have h2 : rest.length + 1 + cs - 1 = rest.length + cs := by omega
            rw [h1, h2]
            rw [Nat.add_div_right rest.length (by omega : 0 < cs)]

theorem toChunks_length {α : Type} (cs : Nat) (hcs : cs ≠ 0) (ws : List α) :
    (toChunks cs ws).length = (ws.length + cs - 1) / cs :=
  toChunks_length_le cs hcs ws.length ws (Nat.le_refl _)

theorem toChunks_flatten_le {α : Type} (cs : Nat) (hcs : cs ≠ 0) :
    ∀ (n : Nat) (ws : List α), ws.length ≤ n → (toChunks cs ws).flatten = ws := by
  intro n
  induction n with
  | zero =>
      intro ws h
      have hnil : ws = [] := List.length_eq_zero.mp (by omega)
      subst hnil
      rw [toChunks_nil]
      rfl
  | succ n ih =>
      intro ws h
      cases ws with
      | nil => rw [toChunks_nil]; rfl
      | cons w rest =>
          rw [toChunks_cons cs hcs]
          rw [List.flatten_cons]
          rw [ih _ (by simp only [List.length_drop, List.length_cons] at h ⊢; omega)]
          exact List.take_append_drop cs (w :: rest)

theorem toChunks_flatten {α : Type} (cs : Nat) (hcs : cs ≠ 0) (ws : List α) :
    (toChunks cs ws).flatten = ws :=
  toChunks_flatten_le cs hcs ws.length ws (Nat.le_refl _)

theorem toChunks_mem_le {α : Type} (cs : Nat) (hcs : cs ≠ 0) :
    ∀ (n : Nat) (ws : List α), ws.length ≤ n →
      ∀ g ∈ toChunks cs ws, g ≠ [] ∧ ∀ x ∈ g, x ∈ ws := by
  intro n
  induction n with
  | zero =>
      intro ws h g hg
      have hnil : ws = [] := List.length_eq_zero.mp (by omega)
      subst hnil
      rw [toChunks_nil] at hg
      simp at hg
  | succ n ih =>
      intro ws h g hg
      cases ws with
      | nil => rw [toChunks_nil] at hg; simp at hg
      | cons w rest =>
          rw [toChunks_cons cs hcs] at hg
          rcases List.mem_cons.mp hg with hg | hg
          · subst hg
            refine ⟨?_, ?_⟩
            · intro hemp
              rw [List.take_eq_nil_iff] at hemp
              rcases hemp with hemp | hemp
              · exact hcs hemp
              · simp at hemp
            · intro x hx
              exact List.take_subset cs (w :: rest) hx
          · have hdl : ((w :: rest).drop cs).length ≤ n := by
              simp only [List.length_drop, List.length_cons] at h ⊢
              omega
            obtain ⟨h1, h2⟩ := ih _ hdl g hg
            refine ⟨h1, ?_⟩
            intro x hx
            exact List.drop_subset cs (w :: rest) (h2 x hx)

theorem toChunks_mem {α : Type} (cs : Nat) (hcs : cs ≠ 0) (ws : List α) :
    ∀ g ∈ toChunks cs ws, g ≠ [] ∧ ∀ x ∈ g, x ∈ ws :=
  toChunks_mem_le cs hcs ws.length ws (Nat.le_refl _)

theorem joinSp_cons (w : List Char) (ws : List (List Char)) (h : ws ≠ []) :
    joinSp (w :: ws) = w ++ spaceChar :: joinSp ws := by
  cases ws with
  | nil => exact absurd rfl h
  | cons v vs => rfl

theorem joinSp_append (ws vs : List (List Char)) (hws : ws ≠ []) (hvs : vs ≠ []) :
    joinSp (ws ++ vs) = joinSp ws ++ spaceChar :: joinSp vs := by
  induction ws with
  | nil => exact absurd rfl hws
  | cons w ws' ih =>
      cases ws' with
      | nil =>
          rw [List.singleton_append, joinSp_cons w vs hvs]
          rfl
      | cons u us =>
          rw [List.cons_append, joinSp_cons w ((u :: us) ++ vs) (by simp),
            ih (by simp), joinSp_cons w (u :: us) (by simp)]
          simp

theorem joinSp_head (ws : List (List Char)) (hne : ws ≠ [])
    (hcl : ∀ w ∈ ws, cleanW w) :
    ∃ c rest, joinSp ws = c :: rest ∧ pyIsSpace c = false := by
  cases ws with
  | nil => exact absurd rfl hne
  | cons w ws' =>
      obtain ⟨hw, hwc⟩ := hcl w (List.mem_cons_self _ _)
      cases w with
      | nil => exact absurd rfl hw
      | cons c ctail =>
          have hc : pyIsSpace c = false := hwc c (List.mem_cons_self _ _)
          cases ws' with
          | nil => exact ⟨c, ctail, rfl, hc⟩
          | cons u us =>
              exact ⟨c, ctail ++ spaceChar :: joinSp (u :: us), rfl, hc⟩

theorem joinSp_last (ws : List (List Char)) (hne : ws ≠ [])
    (hcl : ∀ w ∈ ws, cleanW w) :
    ∃ c rest, (joinSp ws).reverse = c :: rest ∧ pyIsSpace c = false := by
  induction ws with
  | nil => exact absurd rfl hne
  | cons w ws' ih =>
      cases ws' with
      | nil =>
          obtain ⟨hw, hwc⟩ := hcl w (List.mem_cons_self _ _)
          cases hr : w.reverse with
          | nil =>
              rw [List.reverse_eq_nil_iff] at hr
              exact absurd hr hw
          | cons c rest =>
              refine ⟨c, rest, hr, ?_⟩
              have hcm : c ∈ w := by
                rw [← List.mem_reverse, hr]
                exact List.mem_cons_self _ _
              exact hwc c hcm
      | cons u us =>
          obtain ⟨c, rest, hcr, hc⟩ :=
            ih (by simp) (fun x hx => hcl x (List.mem_cons_of_mem _ hx))
          refine ⟨c, rest ++ spaceChar :: w.reverse, ?_, hc⟩
          rw [joinSp_cons w (u :: us) (by simp), List.reverse_append,
            List.reverse_cons, hcr]
          simp

theorem joinSp_ne_nil (ws : List (List Char)) (hne : ws ≠ [])
    (hcl : ∀ w ∈ ws, cleanW w) : joinSp ws ≠ [] := by
  obtain ⟨c, rest, hh, _⟩ := joinSp_head ws hne hcl
  rw [hh]
  simp

theorem strip_join_space (ws : List (List Char)) (hne : ws ≠ [])
    (hcl : ∀ w ∈ ws, cleanW w) :
    stripL (joinSp ws ++ [spaceChar]) = joinSp ws := by
  obtain ⟨c0, r0, hh, hc0⟩ := joinSp_head ws hne hcl
  obtain ⟨c1, r1, hl, hc1⟩ := joinSp_last ws hne hcl
  have h1 : lstripL (joinSp ws ++ [spaceChar]) = joinSp ws ++ [spaceChar] := by
    unfold lstripL
    rw [hh, List.cons_append, List.dropWhile_cons_of_neg (by simp [hc0]),
      ← List.cons_append, ← hh]
  have h2 : rstripL (joinSp ws ++ [spaceChar]) = joinSp ws := by
    unfold rstripL
    rw [List.reverse_append]
    simp only [List.reverse_cons, List.reverse_nil, List.nil_append,
      List.singleton_append]
    rw [List.dropWhile_cons_of_pos (by decide), hl,
      List.dropWhile_cons_of_neg (by simp [hc1]), ← hl, List.reverse_reverse]
  unfold stripL
  rw [h1, h2]

theorem cumConcat_length {α : Type} (gs : List (List α)) :
    ∀ pre, (cumConcat pre gs).length = gs.length := by
  induction gs with
  | nil => intro pre; rfl
  | cons g gs' ih =>
      intro pre
      simp only [cumConcat, List.length_cons, ih]

theorem cumConcat_getLast {α : Type} (gs : List (List α)) :
    ∀ pre, gs ≠ [] →
      (cumConcat pre gs).getLast? = some (pre ++ gs.flatten) := by
  induction gs with
  | nil => intro pre h; exact absurd rfl h
  | cons g gs' ih =>
      intro pre _
      rw [show cumConcat pre (g :: gs') = (pre ++ g) :: cumConcat (pre ++ g) gs'
        from rfl]
      cases hgs : gs' with
      | nil => simp [cumConcat]
      | cons u us =>
          subst hgs
          rw [show cumConcat (pre ++ g) (u :: us) =
            ((pre ++ g) ++ u) :: cumConcat ((pre ++ g) ++ u) us from rfl]
          rw [List.getLast?_cons_cons]
          rw [← show cumConcat (pre ++ g) (u :: us) =
            ((pre ++ g) ++ u) :: cumConcat ((pre ++ g) ++ u) us from rfl]
          rw [ih (pre ++ g) (by simp)]
          simp

theorem cumConcat_get_succ {α : Type} (gs : List (List α)) :
    ∀ pre j a b, (cumConcat pre gs).get? j = some a →
      (cumConcat pre gs).get? (j + 1) = some b →
      ∃ g, g ∈ gs ∧ b = a ++ g := by
  induction gs with
  | nil =>
      intro pre j a b ha _
      simp [cumConcat] at ha
  | cons g gs' ih =>
      intro pre j a b ha hb
      rw [show cumConcat pre (g :: gs') = (pre ++ g) :: cumConcat (pre ++ g) gs'
        from rfl] at ha hb
      cases j with
      | zero =>
          rw [List.get?_cons_zero] at ha
          rw [List.get?_cons_succ] at hb
          cases gs' with
          | nil => simp [cumConcat] at hb
          | cons u us =>
              rw [show cumConcat (pre ++ g) (u :: us) =
                ((pre ++ g) ++ u) :: cumConcat ((pre ++ g) ++ u) us from rfl,
                List.get?_cons_zero] at hb
              injection ha with ha
              injection hb with hb
              refine ⟨u, by simp, ?_⟩
              rw [← ha, ← hb]
      | succ j' =>
          rw [List.get?_cons_succ] at ha hb
          obtain ⟨g', hg', hab⟩ := ih (pre ++ g) j' a b ha hb
          exact ⟨g', by simp [hg'], hab⟩

theorem cumConcat_mem_ne_nil {α : Type} (gs : List (List α)) :
    ∀ pre, (∀ g ∈ gs, g ≠ []) → ∀ x ∈ cumConcat pre gs, x ≠ [] := by
  induction gs with
  | nil =>
      intro pre _ x hx
      simp [cumConcat] at hx
  | cons g gs' ih =>
      intro pre hg x hx
      rcases List.mem_cons.mp hx with rfl | hx
      · have hne : g ≠ [] := hg g (List.mem_cons_self _ _)
        simp [hne]
      · exact ih (pre ++ g) (fun y hy => hg y (List.mem_cons_of_mem _ hy)) x hx

theorem accOf_eq (ws : List (List Char)) (h : ws ≠ []) :
    accOf ws = joinSp ws ++ [spaceChar] := by
  cases ws with
  | nil => exact absurd rfl h
  | cons w ws' => rfl

theorem partsAux_cum (gs : List (List (List Char))) :
    ∀ pre, (∀ g ∈ gs, g ≠ [] ∧ ∀ w ∈ g, cleanW w) →
      (∀ w ∈ pre, cleanW w) →
      partsAux (accOf pre) (gs.map joinSp) = (cumConcat pre gs).map joinSp := by
  induction gs with
  | nil => intro pre _ _; rfl
  | cons g gs' ih =>
      intro pre hgs hpre
      obtain ⟨hgne, hgcl⟩ := hgs g (List.mem_cons_self _ _)
      have hpgne : pre ++ g ≠ [] := by
        intro hemp
        rw [List.append_eq_nil] at hemp
        exact hgne hemp.2
      have hcl2 : ∀ w ∈ pre ++ g, cleanW w := by
        intro w hw
        rcases List.mem_append.mp hw with hw | hw
        · exact hpre w hw
        · exact hgcl w hw
      have hkey : accOf pre ++ joinSp g ++ [spaceChar] = accOf (pre ++ g) := by
        cases pre with
        | nil =>
            simp only [List.nil_append]
            rw [accOf_eq g hgne]
            rfl
        | cons p ps =>
            rw [accOf_eq (p :: ps) (by simp), accOf_eq ((p :: ps) ++ g) (by simp),
              joinSp_append (p :: ps) g (by simp) hgne]
            simp
      have hstrip : stripL (accOf (pre ++ g)) = joinSp (pre ++ g) := by
        rw [accOf_eq (pre ++ g) hpgne]
        exact strip_join_space (pre ++ g) hpgne hcl2
      show stripL (accOf pre ++ joinSp g ++ [spaceChar]) ::
      partsAux (accOf pre ++ joinSp g ++ [spaceChar]) (gs'.map joinSp) = _
      rw [hkey, hstrip,
        ih (pre ++ g) (fun x hx => hgs x (List.mem_cons_of_mem _ hx)) hcl2]
      rfl

theorem chunkSize_eq (n : Nat) :
    chunkSize n = min (max (n / 10) 5) 10 ∧ chunkSize n ≠ 0 := by
  unfold chunkSize
  have h5 : 5 ≤ min (max (n / 10) 5) 10 :=
    Nat.le_min.mpr ⟨le_max_right _ _, by norm_num⟩
  rw [if_neg (by omega)]
  exact ⟨rfl, by omega⟩

/-- C4 counterexample: the response "a  b" has W = 2 words.  The claimed
chunk size for W < 5 is 1, predicting ceil(2/1) = 2 partial events with the
last one equal to the text stripped of trailing whitespace; the code emits
a single partial whose content rejoins the words with single spaces
("a b"), not the right-stripped original ("a  b"). -/
theorem chunking_claim_counterexample :
    (pySplit "a  b".toList).length = 2 ∧
    (streamParts "a  b".toList).length = 1 ∧
    ¬ ((streamParts "a  b".toList).length = (2 + 1 - 1) / 1) ∧
    ¬ ((streamParts "a  b".toList).getLast? =
      some (rstripL "a  b".toList)) := by
  refine ⟨rfl, rfl, by decide, by decide⟩

/-- C4 (amended): for a response of W ≥ 1 words the chunk size is
`min(max(W // 10, 5), 10)` — never below 5, so the claimed value 1 for
W < 5 never occurs and the below-1 guard is dead — the turn emits exactly
`ceil(W / chunk_size)` partial events, the partial contents grow strictly
as prefixes (each is a proper prefix of the next), and the last partial
content equals the response's words rejoined by single spaces (which
coincides with the text stripped of trailing whitespace exactly when the
words were separated by single spaces without leading whitespace). -/
theorem chunking_spec_amended (r : List Char) (hW : 1 ≤ (pySplit r).length) :
    chunkSize (pySplit r).length = min (max ((pySplit r).length / 10) 5) 10 ∧
    (streamParts r).length =
      ((pySplit r).length + chunkSize (pySplit r).length - 1) /
        chunkSize (pySplit r).length ∧
    (streamParts r).getLast? = some (joinSp (pySplit r)) ∧
    (∀ j a b, (streamParts r).get? j = some a →
      (streamParts r).get? (j + 1) = some b → ∃ t, t ≠ [] ∧ b = a ++ t) := by
  obtain ⟨hcs_eq, hcs0⟩ := chunkSize_eq (pySplit r).length
  have hclean := pySplit_clean r
  have hgs' : ∀ g ∈ toChunks (chunkSize (pySplit r).length) (pySplit r),
      g ≠ [] ∧ ∀ w ∈ g, cleanW w := by
    intro g hg
    obtain ⟨h1, h2⟩ := toChunks_mem _ hcs0 (pySplit r) g hg
    exact ⟨h1, fun w hw => hclean w (h2 w hw)⟩
  have hmaster : streamParts r =
      (cumConcat [] (toChunks (chunkSize (pySplit r).length) (pySplit r))).map
        joinSp := by
    show partsAux (accOf [])
      ((toChunks (chunkSize (pySplit r).length) (pySplit r)).map joinSp) = _
    exact partsAux_cum _ [] hgs' (by simp)
  have hlen1 : 1 ≤ (toChunks (chunkSize (pySplit r).length) (pySplit r)).length := by
    rw [toChunks_length _ hcs0]
    rw [Nat.one_le_div_iff (by omega)]
    omega
  have hchne : toChunks (chunkSize (pySplit r).length) (pySplit r) ≠ [] := by
    intro h
    rw [h] at hlen1
    simp at hlen1
  refine ⟨hcs_eq, ?_, ?_, ?_⟩
  · rw [hmaster, List.length_map, cumConcat_length]
    exact toChunks_length _ hcs0 (pySplit r)
  · rw [hmaster, List.getLast?_map, cumConcat_getLast _ [] hchne,
      List.nil_append, toChunks_flatten _ hcs0]
    rfl
  · intro j a b ha hb
    rw [hmaster, List.get?_map] at ha hb
    cases hga : (cumConcat []
        (toChunks (chunkSize (pySplit r).length) (pySplit r))).get? j with
    | none => rw [hga] at ha; simp at ha
    | some a' =>
        rw [hga] at ha
        simp at ha
        cases hgb : (cumConcat []
            (toChunks (chunkSize (pySplit r).length) (pySplit r))).get? (j + 1) with
        | none => rw [hgb] at hb; simp at hb
        | some b' =>
            rw [hgb] at hb
            simp at hb
            obtain ⟨g, hgmem, hb'⟩ := cumConcat_get_succ _ [] j a' b' hga hgb
            have hane : a' ≠ [] :=
              cumConcat_mem_ne_nil _ [] (fun g' hg' => (hgs' g' hg').1) a'
                (List.get?_mem hga)
            have hgne2 : g ≠ [] := (hgs' g hgmem).1
            refine ⟨spaceChar :: joinSp g, by simp, ?_⟩
            rw [← ha, ← hb, hb']
            exact joinSp_append a' g hane hgne2

/-- C4 witness: a six-word response — chunk size 5, hence ceil(6/5) = 2
partials, the last being all six words joined by single spaces. -/
theorem chunking_spec_amended_witness :
    1 ≤ (pySplit "one two three four five six".toList).length ∧
    (streamParts "one two three four five six".toList).length =
      ((pySplit "one two three four five six".toList).length +
        chunkSize (pySplit "one two three four five six".toList).length - 1) /
        chunkSize (pySplit "one two three four five six".toList).length ∧
    (streamParts "one two three four five six".toList).getLast? =
      some (joinSp (pySplit "one two three four five six".toList)) :=
  ⟨by decide, (chunking_spec_amended _ (by decide)).2.1,
    (chunking_spec_amended _ (by decide)).2.2.1⟩
